import Mathlib

/-!
Verification of the markdown-table generator in `src/scripts/generate.ts`.

The TypeScript source is embedded shallowly: strings are Lean `String`s
(lists of characters), JS arrays are Lean lists, and the two stateful
aspects of the code are made explicit:

* `formatTable` pads its argument's cells **in place** before rendering;
  the post-call state of the argument is `formatTableFinal`.
* a width slot touched past the end of `colChars` becomes JS `NaN`
  (`Math.max(undefined, n)`), modelled as `none : Option Nat`;
  `'-'.repeat(NaN)` is the empty string and `s.padEnd(NaN)` is `s`.
-/

namespace GenerateTs

/-- JS `Math.max` on a width slot that may hold `NaN` (modelled `none`):
`Math.max(NaN, n)` is `NaN`, and reading an out-of-range slot yields
`undefined`, with `Math.max(undefined, n)` also `NaN`. -/
def jsMax : Option Nat → Nat → Option Nat
  | some a, b => some (max a b)
  | none, _ => none

/-- JS array write `a[idx] = v`: in range it updates; past the end it extends
the array, intermediate holes reading back as `undefined` (`none`). -/
def setExtend (a : List (Option Nat)) (idx : Nat) (v : Option Nat) : List (Option Nat) :=
  if idx < a.length then a.set idx v
  else a ++ List.replicate (idx - a.length) none ++ [v]

/-- `row.forEach((col, idx) => { colChars[idx] = Math.max(colChars[idx], col?.length || 0) })`,
starting from array index `idx`. -/
def updColsFrom (acc : List (Option Nat)) (idx : Nat) : List String → List (Option Nat)
  | [] => acc
  | col :: rest => updColsFrom (setExtend acc idx (jsMax (acc.getD idx none) col.length)) (idx + 1) rest

/-- One iteration of the outer width loop, over a single row. -/
def updCols (acc : List (Option Nat)) (row : List String) : List (Option Nat) :=
  updColsFrom acc 0 row

/-- The `colChars` array after the first `table.forEach` loop:
initialised to `header.length` zeros, then folded over every row of the
table (header included). -/
def colCharsOf (header : List String) (table : List (List String)) : List (Option Nat) :=
  table.foldl updCols (List.replicate header.length (some 0))

/-- `col?.padEnd(w, ' ') || ''`: right-pad with spaces to width `w`.
A `NaN` width (`none`) leaves the string unchanged, and the `|| ''`
branch returns `''` exactly when `padEnd` already returned it, so it is
the identity on the result. -/
def padCell : Option Nat → String → String
  | some n, s => s ++ String.mk (List.replicate (n - s.length) ' ')
  | none, s => s

/-- The in-place padding pass over one row:
`row.forEach((col, colIdx) => { table[rowIdx][colIdx] = col?.padEnd(colChars[colIdx], ' ') || '' })`,
starting from array index `idx`. -/
def padRowFrom (cc : List (Option Nat)) (idx : Nat) : List String → List String
  | [] => []
  | col :: rest => padCell (cc.getD idx none) col :: padRowFrom cc (idx + 1) rest

/-- A row after the in-place padding pass. -/
def padRow (cc : List (Option Nat)) (row : List String) : List String :=
  padRowFrom cc 0 row

/-- `'-'.repeat(w)`; `repeat(NaN)` gives the empty string. -/
def dashes : Option Nat → String
  | some n => String.mk (List.replicate n '-')
  | none => ""

/-- JS `Array.prototype.join(sep)`. -/
def jsJoin (sep : String) : List String → String
  | [] => ""
  | [x] => x
  | x :: y :: ys => x ++ sep ++ jsJoin sep (y :: ys)

/-- One rendered line: `` `| ${cells.join(' | ')} |` ``. -/
def renderRow (cells : List String) : String :=
  "| " ++ jsJoin " | " cells ++ " |"

/-- The lines of the rendered table for a non-empty input: header line,
dash separator, then one line per body row.  The code renders the table
*after* the in-place padding loop, so every cell appears padded. -/
def formatTableLines (header : List String) (body : List (List String)) : List String :=
  let cc := colCharsOf header (header :: body)
  renderRow (padRow cc header)
    :: renderRow (cc.map dashes)
    :: body.map (fun row => renderRow (padRow cc row))

/-- `formatTable` from `src/scripts/generate.ts`: the returned string. -/
def formatTable : List (List String) → String
  | [] => "**No data**"
  | header :: body => jsJoin "\n" (formatTableLines header body)

/-- The state of the argument `table` after `formatTable` returns: the second
`table.forEach` loop overwrites every cell in place with its padded form. -/
def formatTableFinal : List (List String) → List (List String)
  | [] => []
  | header :: body => (header :: body).map (padRow (colCharsOf header (header :: body)))

/-- Number of `'|'` characters in a string; a rendered table line with
`n` cells and pipe-free cell text contains `n + 1` of them, i.e. it has
`n` pipe-delimited fields. -/
def pipeCount (s : String) : Nat := s.data.count '|'

/-- The spec's column-width formula: the maximum, over every row of the
table (header included), of the character length of that row's cell at
index `i`, a missing cell counting as length 0. -/
def specColWidth (table : List (List String)) (i : Nat) : Nat :=
  table.foldl (fun w row => max w ((row.getD i "").length)) 0

/-- `text.replaceAll(c, rep)` for a single-character search string `c`. -/
def replaceAllChar (c : Char) (rep : List Char) : List Char → List Char
  | [] => []
  | a :: rest => (if a = c then rep else [a]) ++ replaceAllChar c rep rest

/-- The four successive `replaceAll` passes of `markdownEscape`, innermost
(applied first) the ampersand pass. -/
def escapeList (l : List Char) : List Char :=
  replaceAllChar '|' "&vert;".data
    (replaceAllChar '>' "&gt;".data
      (replaceAllChar '<' "&lt;".data
        (replaceAllChar '&' "&amp;".data l)))

/-- `markdownEscape` from the source:
`text.replaceAll('&','&amp;').replaceAll('<','&lt;').replaceAll('>','&gt;').replaceAll('|','&vert;')`. -/
def markdownEscape (s : String) : String :=
  String.mk (escapeList s.data)

/-- Modelled from the spec's words, for comparison with `markdownEscape`:
a single pass in which each original `&`, `<`, `>`, `|` becomes its entity
exactly once and every other character is untouched. -/
def specEscapeChar (c : Char) : List Char :=
  if c = '&' then "&amp;".data
  else if c = '<' then "&lt;".data
  else if c = '>' then "&gt;".data
  else if c = '|' then "&vert;".data
  else [c]

/-- The single-pass escape over a character list. -/
def specEscapeList : List Char → List Char
  | [] => []
  | c :: rest => specEscapeChar c ++ specEscapeList rest

/-- The single-pass escape as a string function. -/
def specEscape (s : String) : String :=
  String.mk (specEscapeList s.data)

theorem replaceAllChar_append (c : Char) (rep : List Char) (x y : List Char) :
    replaceAllChar c rep (x ++ y) = replaceAllChar c rep x ++ replaceAllChar c rep y := by
  induction x with
  | nil => rfl
  | cons a x ih => simp [replaceAllChar, ih, List.append_assoc]

theorem escapeList_append (x y : List Char) :
    escapeList (x ++ y) = escapeList x ++ escapeList y := by
  simp [escapeList, replaceAllChar_append]

theorem escapeList_singleton (a : Char) : escapeList [a] = specEscapeChar a := by
  by_cases h1 : a = '&'
  · subst h1; decide
  by_cases h2 : a = '<'
  · subst h2; decide
  by_cases h3 : a = '>'
  · subst h3; decide
  by_cases h4 : a = '|'
  · subst h4; decide
  simp [escapeList, replaceAllChar, specEscapeChar, h1, h2, h3, h4]

theorem escapeList_eq_spec (l : List Char) : escapeList l = specEscapeList l := by
  induction l with
  | nil => rfl
  | cons a l ih =>
    have h : a :: l = [a] ++ l := rfl
    rw [h, escapeList_append, ih, escapeList_singleton]
    rfl

/-- C7: the four ordered `replaceAll` passes (`&` first, then `<`, `>`, `|`)
coincide, on every input, with a single pass mapping each original special
character to its entity exactly once — so ampersands introduced by the later
substitutions are never re-escaped.  Concretely, `a&<>|b` becomes
`a&amp;&lt;&gt;&vert;b`. -/
theorem markdownEscape_single_pass :
    (∀ s, markdownEscape s = specEscape s) ∧
      markdownEscape "a&<>|b" = "a&amp;&lt;&gt;&vert;b" := by
  constructor
  · intro s
    show String.mk (escapeList s.data) = String.mk (specEscapeList s.data)
    rw [escapeList_eq_spec]
  · decide

/-- A declared command from the package manifest. -/
structure RaycastCommand where
  name : String
  title : String
  description : String
  mode : String

/-- A declared preference from the package manifest.  `required` is an
optional boolean (`undefined` is falsy in `p.required ? 'Yes' : 'No'`).
`default` is `unknown` in the source; we carry its `String(v)` textual
form, with `none` for an absent default. -/
structure RaycastPreference where
  name : String
  title : String
  type : String
  required : Option Bool
  description : String
  default : Option String

/-- The manifest fields the generator reads. -/
structure PackageJSON where
  commands : Option (List RaycastCommand)
  preferences : Option (List RaycastPreference)

/-- `String(p.default)`: a present default is carried already in textual
form; `String(undefined)` is the literal text `undefined`. -/
def defaultText (d : Option String) : String := d.getD "undefined"

/-- One commands-table body row. -/
def commandRow (c : RaycastCommand) : List String :=
  ["`" ++ c.title ++ "`", markdownEscape c.description]

/-- One preferences-table body row. -/
def prefRow (p : RaycastPreference) : List String :=
  ["`" ++ p.name ++ "`",
   markdownEscape p.description,
   "`" ++ (if p.required.getD false then "Yes" else "No") ++ "`",
   markdownEscape (defaultText p.default)]

/-- `commandsTable`: header plus one row per command when `commands` is a
non-empty array; the `else` branch empties the whole table to `[]`. -/
def commandsTableOf (pkg : PackageJSON) : List (List String) :=
  match pkg.commands with
  | some cs => if cs.length = 0 then [] else ["Title", "Description"] :: cs.map commandRow
  | none => []

/-- `configsTable`: header plus one row per preference when `preferences`
is a non-empty array; the `else` branch empties the whole table to `[]`. -/
def configsTableOf (pkg : PackageJSON) : List (List String) :=
  match pkg.preferences with
  | some ps =>
    if ps.length = 0 then [] else ["Key", "Description", "Required", "Default"] :: ps.map prefRow
  | none => []

/-- `generateMarkdown`: the pair of rendered tables. -/
def generateMarkdown (pkg : PackageJSON) : String × String :=
  (formatTable (commandsTableOf pkg), formatTable (configsTableOf pkg))

/-- C8: for the `k`-th declared preference, the table that `generateMarkdown`
renders as its configs table carries, at body position `k`, exactly the row
[backtick-wrapped name, escaped description, backtick-wrapped `Yes`/`No`
by the required flag, escaped textual default]; an absent default yields the
literal cell `undefined`. -/
theorem generateMarkdown_pref_row (pkg : PackageJSON) (ps : List RaycastPreference)
    (hps : pkg.preferences = some ps) (hne : ps ≠ []) (k : Nat) (hk : k < ps.length) :
    (generateMarkdown pkg).2 = formatTable (configsTableOf pkg) ∧
      (configsTableOf pkg).getD (k + 1) []
        = ["`" ++ (ps.get ⟨k, hk⟩).name ++ "`",
           markdownEscape (ps.get ⟨k, hk⟩).description,
           if (ps.get ⟨k, hk⟩).required = some true then "`Yes`" else "`No`",
           markdownEscape (defaultText (ps.get ⟨k, hk⟩).default)] ∧
      ((ps.get ⟨k, hk⟩).default = none →
        ((configsTableOf pkg).getD (k + 1) []).getD 3 "" = "undefined") := by
  have hlen : ¬ ps.length = 0 := by
    intro h
    exact hne (List.length_eq_zero.mp h)
  have htab : configsTableOf pkg
      = ["Key", "Description", "Required", "Default"] :: ps.map prefRow := by
    simp [configsTableOf, hps, hlen]
  have hrow : (configsTableOf pkg).getD (k + 1) [] = prefRow (ps.get ⟨k, hk⟩) := by
    rw [htab]
    have h1 : (["Key", "Description", "Required", "Default"] :: ps.map prefRow).getD (k + 1) []
        = (ps.map prefRow).getD k [] := rfl
    rw [h1, List.getD_eq_getElem?_getD, List.getElem?_map,
      List.getElem?_eq_getElem hk]
    rfl
  refine ⟨rfl, ?_, ?_⟩
  · rw [hrow]
    show prefRow (ps.get ⟨k, hk⟩) = _
    unfold prefRow
    cases hreq : (ps.get ⟨k, hk⟩).required with
    | none => simp [hreq]
    | some b => cases b <;> simp [hreq]
  · intro hnone
    rw [hrow]
    show (prefRow (ps.get ⟨k, hk⟩)).getD 3 "" = "undefined"
    unfold prefRow
    rw [hnone]
    show markdownEscape (defaultText none) = "undefined"
    decide

/-- C8 witness: a concrete manifest with one preference lacking a default. -/
theorem generateMarkdown_pref_row_witness :
    (PackageJSON.mk none
        (some [RaycastPreference.mk "apiKey" "API Key" "textfield" (some true) "the <key>" none])).preferences
      = some [RaycastPreference.mk "apiKey" "API Key" "textfield" (some true) "the <key>" none] ∧
    ([RaycastPreference.mk "apiKey" "API Key" "textfield" (some true) "the <key>" none] :
        List RaycastPreference) ≠ [] ∧
    (0 : Nat) < 1 ∧
    (configsTableOf (PackageJSON.mk none
        (some [RaycastPreference.mk "apiKey" "API Key" "textfield" (some true) "the <key>" none]))).getD 1 []
      = ["`apiKey`", "the &lt;key&gt;", "`Yes`", "undefined"] := by
  have h := generateMarkdown_pref_row
    (PackageJSON.mk none
      (some [RaycastPreference.mk "apiKey" "API Key" "textfield" (some true) "the <key>" none]))
    [RaycastPreference.mk "apiKey" "API Key" "textfield" (some true) "the <key>" none]
    rfl (by simp) 0 (by decide)
  refine ⟨rfl, by simp, by decide, ?_⟩
  rw [h.2.1]
  decide

theorem data_append (a b : String) : (a ++ b).data = a.data ++ b.data := rfl

/-- The sentinel marker text `<!-- name -->`. -/
def marker (name : String) : String := "<!-- " ++ name ++ " -->"

/-- One position of the regex scan: try the alternation `(v₁|v₂)` of marker
texts in order, returning the matched group (the bare name). -/
def matchVariant (variants : List String) (l : List Char) : Option String :=
  variants.find? fun v => (marker v).data.isPrefixOf l

/-- Index of the first marker occurrence at or after the scan start, with
the matched group text. -/
def findMarkerFrom (variants : List String) : List Char → Option (Nat × String)
  | [] => none
  | c :: rest =>
    match matchVariant variants (c :: rest) with
    | some v => some (0, v)
    | none => (findMarkerFrom variants rest).map fun p => (p.1 + 1, p.2)

/-- The leftmost-shortest match of
`/<!-- (a|b) -->[\s\S]*?<!-- (a|b) -->/` on `l`: the first marker
occurrence, then the earliest following marker occurrence (the non-greedy
end).  `none` when at most one marker occurs, in which case the regex does
not match anywhere. -/
def findPair (variants : List String) (l : List Char) : Option (Nat × String × Nat × String) :=
  match findMarkerFrom variants l with
  | none => none
  | some (i, s) =>
    match findMarkerFrom variants (l.drop (i + (marker s).length)) with
    | none => none
    | some (k, e) => some (i, s, i + (marker s).length + k, e)

/-- ECMA-262 replacement-template expansion for a regex with the two
capture groups `s` and `e`: `$$` is a literal dollar, `$&` the whole
match, a dollar followed by a backquote the text before the match, a
dollar followed by an apostrophe the text after it, `$1`/`$01` and
`$2`/`$02` the groups; any other `$`-sequence is literal. -/
def expandRepl (s e matched before after : List Char) : List Char → List Char
  | '$' :: '$' :: r => '$' :: expandRepl s e matched before after r
  | '$' :: '&' :: r => matched ++ expandRepl s e matched before after r
  | '$' :: '0' :: '1' :: r => s ++ expandRepl s e matched before after r
  | '$' :: '0' :: '2' :: r => e ++ expandRepl s e matched before after r
  | '$' :: '1' :: r => s ++ expandRepl s e matched before after r
  | '$' :: '2' :: r => e ++ expandRepl s e matched before after r
  | '$' :: d :: r =>
    if d = Char.ofNat 96 then before ++ expandRepl s e matched before after r
    else if d = Char.ofNat 39 then after ++ expandRepl s e matched before after r
    else '$' :: expandRepl s e matched before after (d :: r)
  | c :: rest => c :: expandRepl s e matched before after rest
  | [] => []

/-- One `String.prototype.replace` call with the marker regex and the
replacement template `<!-- $1 -->\n\n${T}\n\n<!-- $2 -->` (non-global
regex: first match only; no match leaves the document unchanged). -/
def spliceOne (variants : List String) (T : String) (doc : String) : String :=
  match findPair variants doc.data with
  | none => doc
  | some (i, s, j, e) =>
    String.mk (doc.data.take i
      ++ expandRepl s.data e.data ((doc.data.drop i).take (j + (marker e).length - i))
          (doc.data.take i) (doc.data.drop (j + (marker e).length))
          (("<!-- $1 -->\n\n" ++ T ++ "\n\n<!-- $2 -->").data)
      ++ doc.data.drop (j + (marker e).length))

/-- The marker alternation of the commands region. -/
def commandsVariants : List String := ["commands", "commands-table"]

/-- The marker alternation of the configs region. -/
def configsVariants : List String := ["configs", "configs-table"]

/-- Both replacements of `generate`, in source order: commands region
first, configs region second. -/
def spliceAll (cmdT cfgT raw : String) : String :=
  spliceOne configsVariants cfgT (spliceOne commandsVariants cmdT raw)

/-- `if (raw !== content)`: the condition that triggers the file rewrite. -/
def rewriteNeeded (raw content : String) : Bool := raw != content

theorem setExtend_getD (a : List (Option Nat)) (i j : Nat) (v : Option Nat) :
    (setExtend a j v).getD i none = if i = j then v else a.getD i none := by
  unfold setExtend
  by_cases hj : j < a.length
  · rw [if_pos hj, List.getD_eq_getElem?_getD, List.getElem?_set]
    by_cases hij : i = j
    · subst hij
      simp [hj]
    · have hji : ¬ j = i := fun h => hij h.symm
      simp [hji, hij, List.getD_eq_getElem?_getD]
  · rw [if_neg hj]
    have hja : a.length ≤ j := Nat.le_of_not_lt hj
    have hlen : (a ++ List.replicate (j - a.length) (none : Option Nat)).length = j := by
      simp only [List.length_append, List.length_replicate]
      omega
    by_cases hij : i = j
    · subst hij
      rw [if_pos rfl, List.getD_eq_getElem?_getD,
        List.getElem?_append_right (le_of_eq hlen), hlen, Nat.sub_self]
      rfl
    · rw [if_neg hij, List.getD_eq_getElem?_getD, List.getD_eq_getElem?_getD]
      by_cases hi : i < a.length
      · rw [List.getElem?_append_left (by omega), List.getElem?_append_left hi]
      · by_cases hi2 : i < j
        · rw [List.getElem?_append_left (by rw [hlen]; exact hi2),
            List.getElem?_append_right (Nat.le_of_not_lt hi), List.getElem?_replicate,
            if_pos (by omega), List.getElem?_eq_none (Nat.le_of_not_lt hi)]
          rfl
        · rw [List.getElem?_eq_none (by simp [List.length_append, hlen]; omega),
            List.getElem?_eq_none (by omega)]

theorem updColsFrom_getD (i : Nat) :
    ∀ (row : List String) (acc : List (Option Nat)) (idx0 : Nat),
      (updColsFrom acc idx0 row).getD i none
        = if idx0 ≤ i ∧ i < idx0 + row.length
          then jsMax (acc.getD i none) ((row.getD (i - idx0) "").length)
          else acc.getD i none := by
  intro row
  induction row with
  | nil =>
    intro acc idx0
    rw [if_neg (by simp)]
    rfl
  | cons col rest ih =>
    intro acc idx0
    show (updColsFrom (setExtend acc idx0 (jsMax (acc.getD idx0 none) col.length)) (idx0 + 1) rest).getD i none = _
    rw [ih, setExtend_getD]
    by_cases hi0 : i = idx0
    · subst hi0
      have hc : i ≤ i ∧ i < i + (col :: rest).length := by
        simp only [List.length_cons]
        omega
      rw [if_neg (by omega), if_pos rfl, if_pos hc, Nat.sub_self]
      rfl
    · rw [if_neg hi0]
      by_cases hcond : idx0 ≤ i ∧ i < idx0 + (col :: rest).length
      · rw [if_pos hcond]
        have hc2 : idx0 + 1 ≤ i ∧ i < idx0 + 1 + rest.length := by
          simp only [List.length_cons] at hcond
          omega
        rw [if_pos hc2]
        have hsub : i - idx0 = (i - (idx0 + 1)) + 1 := by omega
        rw [hsub]
        rfl
      · rw [if_neg hcond]
        have hc2 : ¬ (idx0 + 1 ≤ i ∧ i < idx0 + 1 + rest.length) := by
          simp only [List.length_cons] at hcond
          omega
        rw [if_neg hc2]

theorem updCols_getD (acc : List (Option Nat)) (row : List String) (i : Nat) :
    (updCols acc row).getD i none = jsMax (acc.getD i none) ((row.getD i "").length) := by
  unfold updCols
  rw [updColsFrom_getD]
  by_cases h : i < row.length
  · rw [if_pos (by omega)]
    simp
  · rw [if_neg (by omega)]
    have hout : row.getD i "" = "" := by
      rw [List.getD_eq_getElem?_getD, List.getElem?_eq_none (by omega)]
      rfl
    rw [hout]
    cases acc.getD i none <;> simp [jsMax]

theorem foldl_updCols_getD (rows : List (List String)) (i : Nat) :
    ∀ acc : List (Option Nat),
      (rows.foldl updCols acc).getD i none
        = rows.foldl (fun w row => jsMax w ((row.getD i "").length)) (acc.getD i none) := by
  induction rows with
  | nil => intro acc; rfl
  | cons r rows ih =>
    intro acc
    show (rows.foldl updCols (updCols acc r)).getD i none = _
    rw [ih, updCols_getD]
    rfl

theorem foldl_jsMax_some (rows : List (List String)) (i : Nat) :
    ∀ a : Nat,
      rows.foldl (fun w row => jsMax w ((row.getD i "").length)) (some a)
        = some (rows.foldl (fun w row => max w ((row.getD i "").length)) a) := by
  induction rows with
  | nil => intro a; rfl
  | cons r rows ih =>
    intro a
    show rows.foldl _ (jsMax (some a) ((r.getD i "").length)) = _
    exact ih (max a ((r.getD i "").length))

theorem colCharsOf_getD (header : List String) (table : List (List String)) (i : Nat)
    (hi : i < header.length) :
    (colCharsOf header table).getD i none = some (specColWidth table i) := by
  unfold colCharsOf specColWidth
  rw [foldl_updCols_getD]
  have h0 : (List.replicate header.length (some 0 : Option Nat)).getD i none = some 0 := by
    rw [List.getD_eq_getElem?_getD, List.getElem?_replicate, if_pos hi]
    rfl
  rw [h0, foldl_jsMax_some]

theorem length_setExtend (a : List (Option Nat)) (j : Nat) (v : Option Nat) :
    a.length ≤ (setExtend a j v).length := by
  unfold setExtend
  by_cases hj : j < a.length
  · simp [hj]
  · rw [if_neg hj]
    simp only [List.length_append, List.length_replicate, List.length_cons, List.length_nil]
    omega

theorem length_updColsFrom (row : List String) :
    ∀ (acc : List (Option Nat)) (idx : Nat), acc.length ≤ (updColsFrom acc idx row).length := by
  induction row with
  | nil => intro acc idx; exact le_refl _
  | cons col rest ih =>
    intro acc idx
    exact le_trans (length_setExtend acc idx _) (ih _ _)

theorem length_colCharsOf (header : List String) (table : List (List String)) :
    header.length ≤ (colCharsOf header table).length := by
  unfold colCharsOf
  have haux : ∀ (rows : List (List String)) (acc : List (Option Nat)),
      acc.length ≤ (rows.foldl updCols acc).length := by
    intro rows
    induction rows with
    | nil => intro acc; exact le_refl _
    | cons r rows ih =>
      intro acc
      exact le_trans (length_updColsFrom r acc 0) (ih _)
  have hrep : (List.replicate header.length (some 0 : Option Nat)).length = header.length := by
    simp
  have hfin := haux table (List.replicate header.length (some 0 : Option Nat))
  rw [hrep] at hfin
  exact hfin

theorem foldl_max_le_init (l : List (List String)) (g : List String → Nat) :
    ∀ a : Nat, a ≤ l.foldl (fun w r => max w (g r)) a := by
  induction l with
  | nil => intro a; exact le_refl a
  | cons r l ih =>
    intro a
    exact le_trans (Nat.le_max_left a (g r)) (ih (max a (g r)))

theorem mem_le_foldl_max (g : List String → Nat) (row : List String) :
    ∀ (l : List (List String)) (a : Nat), row ∈ l → g row ≤ l.foldl (fun w r => max w (g r)) a := by
  intro l
  induction l with
  | nil => intro a h; cases h
  | cons r l ih =>
    intro a h
    rcases List.mem_cons.mp h with h1 | h1
    · subst h1
      exact le_trans (Nat.le_max_right a (g row)) (foldl_max_le_init l g _)
    · exact ih _ h1

theorem le_specColWidth (table : List (List String)) (i : Nat) (row : List String)
    (hrow : row ∈ table) : (row.getD i "").length ≤ specColWidth table i :=
  mem_le_foldl_max (fun r => (r.getD i "").length) row table 0 hrow

theorem padRowFrom_getD (cc : List (Option Nat)) :
    ∀ (row : List String) (idx i : Nat), i < row.length →
      (padRowFrom cc idx row).getD i "" = padCell (cc.getD (idx + i) none) (row.getD i "") := by
  intro row
  induction row with
  | nil => intro idx i h; exact absurd h (Nat.not_lt_zero i)
  | cons col rest ih =>
    intro idx i h
    cases i with
    | zero => simp [padRowFrom]
    | succ n =>
      show (padRowFrom cc (idx + 1) rest).getD n "" = _
      rw [ih (idx + 1) n (by simpa using Nat.lt_of_succ_lt_succ (by simpa using h))]
      have harith : idx + 1 + n = idx + (n + 1) := by omega
      rw [harith]
      rfl

theorem length_padRowFrom (cc : List (Option Nat)) :
    ∀ (row : List String) (idx : Nat), (padRowFrom cc idx row).length = row.length := by
  intro row
  induction row with
  | nil => intro idx; rfl
  | cons col rest ih => intro idx; simp [padRowFrom, ih]

theorem length_padCell_some (w : Nat) (s : String) (h : s.length ≤ w) :
    (padCell (some w) s).length = w := by
  show (s ++ String.mk (List.replicate (w - s.length) ' ')).length = w
  simp at h ⊢
  omega

theorem dashes_getD (cc : List (Option Nat)) (i : Nat) (w : Nat)
    (hlen : i < cc.length) (h : cc.getD i none = some w) :
    (cc.map dashes).getD i "" = String.mk (List.replicate w '-') := by
  rw [List.getD_eq_getElem?_getD, List.getElem?_map, List.getElem?_eq_getElem hlen]
  have hcc : cc[i] = some w := by
    rw [List.getD_eq_getElem?_getD, List.getElem?_eq_getElem hlen] at h
    simpa using h
  simp [hcc, dashes]

/-- The property claim C1 asserts of a non-empty table at column `i`:
the computed width slot holds the spec's maximum cell length for the
column, every present cell at index `i` is rendered as the original cell
right-padded with spaces to exactly that width, and the separator's dash
run for the column has exactly that width. -/
def columnWidthProp (header : List String) (body : List (List String)) (i : Nat) : Prop :=
  (colCharsOf header (header :: body)).getD i none
      = some (specColWidth (header :: body) i) ∧
  (∀ row ∈ header :: body, i < row.length →
    (padRow (colCharsOf header (header :: body)) row).getD i ""
        = row.getD i ""
            ++ String.mk (List.replicate
                (specColWidth (header :: body) i - (row.getD i "").length) ' ') ∧
    ((padRow (colCharsOf header (header :: body)) row).getD i "").length
        = specColWidth (header :: body) i) ∧
  ((colCharsOf header (header :: body)).map dashes).getD i ""
      = String.mk (List.replicate (specColWidth (header :: body) i) '-') ∧
  (((colCharsOf header (header :: body)).map dashes).getD i "").length
      = specColWidth (header :: body) i

/-- C1: for a non-empty table and any column index `i` below the header's
cell count, the computed column width is the maximum cell length at `i`
over all rows (missing cells counting 0), every rendered cell at `i` is
the original right-padded with spaces to exactly that width, and the
separator's dash run at `i` has exactly that width. -/
theorem formatTable_column_width (header : List String) (body : List (List String)) (i : Nat)
    (hi : i < header.length) : columnWidthProp header body i := by
  have hw := colCharsOf_getD header (header :: body) i hi
  have hlen : i < (colCharsOf header (header :: body)).length :=
    lt_of_lt_of_le hi (length_colCharsOf header (header :: body))
  have hdash := dashes_getD (colCharsOf header (header :: body)) i
    (specColWidth (header :: body) i) hlen hw
  refine ⟨hw, ?_, hdash, ?_⟩
  · intro row hrow hcell
    have hpad : (padRow (colCharsOf header (header :: body)) row).getD i ""
        = padCell ((colCharsOf header (header :: body)).getD i none) (row.getD i "") := by
      have hp := padRowFrom_getD (colCharsOf header (header :: body)) row 0 i hcell
      simpa using hp
    rw [hpad, hw]
    refine ⟨rfl, ?_⟩
    exact length_padCell_some _ _ (le_specColWidth (header :: body) i row hrow)
  · rw [hdash, String.length_mk, List.length_replicate]

/-- C1 witness: a concrete jagged table, column 1 (width 3 from `yyy`). -/
theorem formatTable_column_width_witness :
    (1 : Nat) < (["ab", "c"] : List String).length ∧
      columnWidthProp ["ab", "c"] [["x", "yyy"], ["zzzz"]] 1 :=
  ⟨by decide, formatTable_column_width ["ab", "c"] [["x", "yyy"], ["zzzz"]] 1 (by decide)⟩

theorem formatTable_cons_data (hd : List String) (b : List (List String)) :
    ∃ rest : List Char, (formatTable (hd :: b)).data = '|' :: ' ' :: rest := by
  refine ⟨?_, ?_⟩
  · exact (jsJoin " | " (padRow (colCharsOf hd (hd :: b)) hd)).data
      ++ " |".data ++ "\n".data
      ++ (jsJoin "\n" (renderRow ((colCharsOf hd (hd :: b)).map dashes)
            :: b.map (fun row => renderRow (padRow (colCharsOf hd (hd :: b)) row)))).data
  · show (jsJoin "\n" (formatTableLines hd b)).data = _
    simp only [formatTableLines, jsJoin, renderRow, data_append, List.append_assoc]
    rfl

/-- C4: `formatTable` of a zero-row table is exactly `**No data**`, and a
table with at least one row never renders this placeholder (its output
starts with a pipe character). -/
theorem formatTable_no_data_iff (t : List (List String)) :
    formatTable t = "**No data**" ↔ t = [] := by
  constructor
  · intro h
    cases t with
    | nil => rfl
    | cons hd b =>
      exfalso
      obtain ⟨rest, hr⟩ := formatTable_cons_data hd b
      have hd2 := congrArg String.data h
      rw [hr] at hd2
      have h3 := congrArg List.head? hd2
      simp at h3
  · intro h
    subst h
    rfl

/-- C4 witness: both directions of the iff at concrete tables. -/
theorem formatTable_no_data_iff_witness :
    formatTable ([] : List (List String)) = "**No data**" ∧
      ¬ formatTable [["A"]] = "**No data**" := by
  constructor
  · exact (formatTable_no_data_iff []).mpr rfl
  · intro h
    have := (formatTable_no_data_iff [["A"]]).mp h
    simp at this

/-- C5: a header-only table renders as header line plus separator line,
joined by a single newline, with no body lines. -/
theorem formatTable_header_only :
    formatTable [["A", "B"]] = "| A | B |\n| - | - |" := by decide

/-- C6 counterexample: the spec's worked example shows the second column at
width 16 (separator) and 15 (cells); the code pads every second-column cell
to the true maximum cell length 14, so the output differs from the example. -/
theorem formatTable_worked_example_cex :
    formatTable [["Title", "Description"], ["x", "a longer value"]]
      ≠ "| Title | Description     |\n| ----- | ---------------- |\n| x     | a longer value  |" := by
  decide

/-- C6 amended: the actual rendering of the worked example, with the second
column at width 14 = length of `a longer value`, the longest cell. -/
theorem formatTable_worked_example :
    formatTable [["Title", "Description"], ["x", "a longer value"]]
      = "| Title | Description    |\n| ----- | -------------- |\n| x     | a longer value |" := by
  decide

/-- C2 counterexample: a body row with fewer cells than the header is *not*
padded with empty cells for rendering: its line has only as many
pipe-delimited fields as the row has cells (here 1 field, i.e. 2 pipes,
against the header's 2 fields). -/
theorem formatTable_jagged_fields_cex :
    pipeCount ((formatTableLines ["A", "B"] [["x"]]).getD 2 "")
        ≠ (["A", "B"] : List String).length + 1 ∧
      formatTable [["A", "B"], ["x"]] = "| A | B |\n| - | - |\n| x |" := by
  decide

/-- C3 counterexample: `formatTable` overwrites the cells of its argument in
place; after the call on `[["a"], ["bb"]]` the first cell has become
`"a "`, so the input table is not left unchanged. -/
theorem formatTable_mutates_input_cex :
    formatTableFinal [["a"], ["bb"]] ≠ [["a"], ["bb"]] := by decide

theorem pipeCount_append (a b : String) : pipeCount (a ++ b) = pipeCount a + pipeCount b := by
  simp [pipeCount, data_append]

theorem pipeCount_jsJoin :
    ∀ cells : List String, cells ≠ [] → (∀ c ∈ cells, pipeCount c = 0) →
      pipeCount (jsJoin " | " cells) = cells.length - 1 := by
  intro cells
  induction cells with
  | nil => intro h; exact absurd rfl h
  | cons c cs ih =>
    intro _ hfree
    cases cs with
    | nil =>
      show pipeCount c = 1 - 1
      simp [hfree c (by simp)]
    | cons d ds =>
      show pipeCount (c ++ " | " ++ jsJoin " | " (d :: ds)) = (c :: d :: ds).length - 1
      rw [pipeCount_append, pipeCount_append, hfree c (by simp),
        ih (by simp) (fun x hx => hfree x (by simp [hx]))]
      have hsep : pipeCount " | " = 1 := by decide
      rw [hsep]
      simp only [List.length_cons]
      omega

theorem pipeCount_renderRow (cells : List String) (hne : cells ≠ [])
    (hfree : ∀ c ∈ cells, pipeCount c = 0) :
    pipeCount (renderRow cells) = cells.length + 1 := by
  unfold renderRow
  rw [pipeCount_append, pipeCount_append, pipeCount_jsJoin cells hne hfree]
  have h1 : pipeCount "| " = 1 := by decide
  have h2 : pipeCount " |" = 1 := by decide
  have h3 : cells.length ≠ 0 := fun h => hne (List.length_eq_zero.mp h)
  rw [h1, h2]
  omega

theorem pipeCount_padCell (w : Option Nat) (s : String) (h : pipeCount s = 0) :
    pipeCount (padCell w s) = 0 := by
  cases w with
  | none => exact h
  | some n =>
    show pipeCount (s ++ String.mk (List.replicate (n - s.length) ' ')) = 0
    rw [pipeCount_append, h]
    simp [pipeCount, List.count_replicate]

theorem pipeCount_padRowFrom (cc : List (Option Nat)) :
    ∀ (row : List String) (idx : Nat), (∀ c ∈ row, pipeCount c = 0) →
      ∀ c ∈ padRowFrom cc idx row, pipeCount c = 0 := by
  intro row
  induction row with
  | nil => intro idx _ c hc; cases hc
  | cons col rest ih =>
    intro idx h c hc
    rcases List.mem_cons.mp hc with h1 | h1
    · subst h1
      exact pipeCount_padCell _ _ (h col (by simp))
    · exact ih (idx + 1) (fun x hx => h x (by simp [hx])) c h1

theorem pipeCount_dashes (w : Option Nat) : pipeCount (dashes w) = 0 := by
  cases w with
  | none => rfl
  | some n => simp [dashes, pipeCount, List.count_replicate]

theorem padRow_ne_nil (cc : List (Option Nat)) (r : List String) (hr : r ≠ []) :
    padRow cc r ≠ [] := by
  intro h
  apply hr
  have hl := length_padRowFrom cc r 0
  rw [show padRowFrom cc 0 r = padRow cc r from rfl, h] at hl
  exact List.length_eq_zero.mp hl.symm

/-- C2 amended: every rendered line has one pipe-delimited field per cell of
the row it renders — `header.length` fields on the header line, one field per
`colChars` entry on the separator, and for each body row *its own* cell
count (short rows are not padded with extra empty cells).  Stated for
tables whose rows are non-empty and whose cells contain no pipe character;
`pipeCount line = fields + 1`. -/
theorem formatTable_fields_per_row (header : List String) (body : List (List String))
    (hrows : ∀ row ∈ header :: body, row ≠ [] ∧ ∀ c ∈ row, pipeCount c = 0) :
    pipeCount ((formatTableLines header body).getD 0 "") = header.length + 1 ∧
    pipeCount ((formatTableLines header body).getD 1 "")
        = (colCharsOf header (header :: body)).length + 1 ∧
    ∀ k, k < body.length →
      pipeCount ((formatTableLines header body).getD (k + 2) "")
          = (body.getD k []).length + 1 := by
  have hh : header ≠ [] := (hrows header (by simp)).1
  refine ⟨?_, ?_, ?_⟩
  · show pipeCount (renderRow (padRow (colCharsOf header (header :: body)) header)) = _
    rw [pipeCount_renderRow _ (padRow_ne_nil _ _ hh)
      (pipeCount_padRowFrom _ header 0 (hrows header (by simp)).2)]
    rw [show padRow (colCharsOf header (header :: body)) header
        = padRowFrom (colCharsOf header (header :: body)) 0 header from rfl]
    rw [length_padRowFrom]
  · show pipeCount (renderRow ((colCharsOf header (header :: body)).map dashes)) = _
    have hccne : (colCharsOf header (header :: body)).map dashes ≠ [] := by
      intro h
      have h2 := congrArg List.length h
      simp only [List.length_map, List.length_nil] at h2
      have h3 := length_colCharsOf header (header :: body)
      rw [h2] at h3
      exact hh (List.length_eq_zero.mp (Nat.le_zero.mp h3))
    rw [pipeCount_renderRow _ hccne ?_, List.length_map]
    intro c hc
    rcases List.mem_map.mp hc with ⟨w, _, hw⟩
    rw [← hw]
    exact pipeCount_dashes w
  · intro k hk
    have hline : (formatTableLines header body).getD (k + 2) ""
        = renderRow (padRow (colCharsOf header (header :: body)) (body.getD k [])) := by
      show (body.map fun row => renderRow (padRow (colCharsOf header (header :: body)) row)).getD k ""
          = _
      rw [List.getD_eq_getElem?_getD, List.getElem?_map, List.getElem?_eq_getElem hk,
        List.getD_eq_getElem?_getD, List.getElem?_eq_getElem hk]
      rfl
    have hmem : body.getD k [] ∈ header :: body := by
      rw [List.getD_eq_getElem?_getD, List.getElem?_eq_getElem hk]
      exact List.mem_cons_of_mem _ (List.getElem_mem hk)
    rw [hline, pipeCount_renderRow _ (padRow_ne_nil _ _ (hrows _ hmem).1)
      (pipeCount_padRowFrom _ _ 0 (hrows _ hmem).2)]
    rw [show padRow (colCharsOf header (header :: body)) (body.getD k [])
        = padRowFrom (colCharsOf header (header :: body)) 0 (body.getD k []) from rfl]
    rw [length_padRowFrom]

/-- C2 amended witness: a rectangular 2x2 table. -/
theorem formatTable_fields_per_row_witness :
    (∀ row ∈ [["A", "B"], ["x", "y"]], row ≠ [] ∧ ∀ c ∈ row, pipeCount c = 0) ∧
    (pipeCount ((formatTableLines ["A", "B"] [["x", "y"]]).getD 0 "")
        = (["A", "B"] : List String).length + 1 ∧
      pipeCount ((formatTableLines ["A", "B"] [["x", "y"]]).getD 1 "")
        = (colCharsOf ["A", "B"] [["A", "B"], ["x", "y"]]).length + 1 ∧
      ∀ k, k < ([["x", "y"]] : List (List String)).length →
        pipeCount ((formatTableLines ["A", "B"] [["x", "y"]]).getD (k + 2) "")
          = ([["x", "y"]].getD k []).length + 1) :=
  ⟨by decide, formatTable_fields_per_row ["A", "B"] [["x", "y"]] (by decide)⟩

theorem append_pad_zero (s : String) : s ++ String.mk (List.replicate 0 ' ') = s := by
  cases s with
  | mk d =>
    show String.mk (d ++ []) = String.mk d
    rw [List.append_nil]

/-- C3 amended: `formatTable` is deterministic (in this embedding it is a
function of its argument alone, with no shared state), but it does *not*
leave its input unchanged: the call rewrites the table in place, and after
it every cell is the original cell right-padded with some number of
spaces. -/
theorem formatTableFinal_pads_cells (t : List (List String)) (i j : Nat) :
    ∃ k, ((formatTableFinal t).getD i []).getD j ""
        = ((t.getD i []).getD j "") ++ String.mk (List.replicate k ' ') := by
  cases t with
  | nil => exact ⟨0, (append_pad_zero "").symm⟩
  | cons header body =>
    by_cases hi : i < (header :: body).length
    · have hrow : (formatTableFinal (header :: body)).getD i []
          = padRow (colCharsOf header (header :: body)) ((header :: body).getD i []) := by
        show ((header :: body).map (padRow (colCharsOf header (header :: body)))).getD i [] = _
        rw [List.getD_eq_getElem?_getD, List.getElem?_map, List.getElem?_eq_getElem hi,
          List.getD_eq_getElem?_getD, List.getElem?_eq_getElem hi]
        rfl
      rw [hrow]
      by_cases hj : j < ((header :: body).getD i []).length
      · rw [show padRow (colCharsOf header (header :: body)) ((header :: body).getD i [])
            = padRowFrom (colCharsOf header (header :: body)) 0 ((header :: body).getD i [])
            from rfl]
        rw [padRowFrom_getD _ _ 0 j hj]
        simp only [Nat.zero_add]
        cases hcc : (colCharsOf header (header :: body)).getD j none with
        | none => exact ⟨0, (append_pad_zero _).symm⟩
        | some w => exact ⟨w - (((header :: body).getD i []).getD j "").length, rfl⟩
      · have h1 : (padRow (colCharsOf header (header :: body))
            ((header :: body).getD i [])).getD j "" = "" := by
          rw [List.getD_eq_getElem?_getD, List.getElem?_eq_none ?_]
          · rfl
          · rw [show padRow (colCharsOf header (header :: body)) ((header :: body).getD i [])
                = padRowFrom (colCharsOf header (header :: body)) 0 ((header :: body).getD i [])
                from rfl, length_padRowFrom]
            exact Nat.le_of_not_lt hj
        have h2 : ((header :: body).getD i []).getD j "" = "" := by
          rw [List.getD_eq_getElem?_getD, List.getElem?_eq_none (Nat.le_of_not_lt hj)]
          rfl
        rw [h1, h2]
        exact ⟨0, (append_pad_zero "").symm⟩
    · have h1 : (formatTableFinal (header :: body)).getD i [] = [] := by
        show ((header :: body).map (padRow (colCharsOf header (header :: body)))).getD i [] = []
        rw [List.getD_eq_getElem?_getD, List.getElem?_eq_none (by
          rw [List.length_map]
          exact Nat.le_of_not_lt hi)]
        rfl
      have h2 : (header :: body).getD i [] = [] := by
        rw [List.getD_eq_getElem?_getD, List.getElem?_eq_none (Nat.le_of_not_lt hi)]
        rfl
      rw [h1, h2]
      exact ⟨0, (append_pad_zero "").symm⟩

theorem string_length_data (s : String) : s.length = s.data.length := by
  cases s
  rfl

theorem mk_data (s : String) : String.mk s.data = s := by
  cases s
  rfl

theorem isPrefixOf_exists {l₁ l₂ : List Char} (h : l₁.isPrefixOf l₂ = true) :
    ∃ t, l₁ ++ t = l₂ := by
  induction l₁ generalizing l₂ with
  | nil => exact ⟨l₂, rfl⟩
  | cons a as ih =>
    cases l₂ with
    | nil => simp [List.isPrefixOf] at h
    | cons b bs =>
      simp only [List.isPrefixOf, Bool.and_eq_true, beq_iff_eq] at h
      obtain ⟨t, ht⟩ := ih h.2
      refine ⟨t, ?_⟩
      rw [h.1]
      simp [ht]

theorem findMarkerFrom_prefix_exists (variants : List String) :
    ∀ (l : List Char) (n : Nat) (s : String),
      findMarkerFrom variants l = some (n, s) →
      ∃ t, l.drop n = (marker s).data ++ t := by
  intro l
  induction l with
  | nil => intro n s h; simp [findMarkerFrom] at h
  | cons c rest ih =>
    intro n s h
    cases hm : matchVariant variants (c :: rest) with
    | some v =>
      rw [findMarkerFrom, hm] at h
      have hns : n = 0 ∧ v = s := by
        have h1 := congrArg (fun o => Option.map Prod.fst o) h
        have h2 := congrArg (fun o => Option.map Prod.snd o) h
        simp at h1 h2
        exact ⟨h1.symm, h2⟩
      obtain ⟨hn, hv⟩ := hns
      subst hn
      subst hv
      have hm2 : variants.find? (fun v => (marker v).data.isPrefixOf (c :: rest)) = some v := hm
      have hp := List.find?_some hm2
      have hp2 : ((marker v).data.isPrefixOf (c :: rest)) = true := hp
      obtain ⟨t, ht⟩ := isPrefixOf_exists hp2
      exact ⟨t, by rw [List.drop_zero]; exact ht.symm⟩
    | none =>
      rw [findMarkerFrom, hm] at h
      rw [Option.map_eq_some'] at h
      obtain ⟨⟨m, s2⟩, hfind, heq⟩ := h
      have hn : n = m + 1 := by
        have hfst := congrArg Prod.fst heq
        simpa using hfst.symm
      have hs : s2 = s := by
        have hsnd := congrArg Prod.snd heq
        simpa using hsnd
      obtain ⟨t, ht⟩ := ih m s2 hfind
      refine ⟨t, ?_⟩
      rw [hn, ← hs]
      exact ht

theorem spliceOne_self (variants : List String) (T doc : String) (i k : Nat) (s e : String)
    (h1 : findMarkerFrom variants doc.data = some (i, s))
    (h2 : findMarkerFrom variants (doc.data.drop (i + (marker s).length)) = some (k, e))
    (hmid : (doc.data.drop (i + (marker s).length)).take k = ("\n\n" ++ T ++ "\n\n").data)
    (hexp : expandRepl s.data e.data
        ((doc.data.drop i).take ((marker s).length + k + (marker e).length))
        (doc.data.take i)
        (doc.data.drop (i + (marker s).length + k + (marker e).length))
        (("<!-- $1 -->\n\n" ++ T ++ "\n\n<!-- $2 -->").data)
      = (marker s).data ++ (("\n\n" ++ T ++ "\n\n").data ++ (marker e).data)) :
    spliceOne variants T doc = doc := by
  have hfp : findPair variants doc.data = some (i, s, i + (marker s).length + k, e) := by
    simp only [findPair, h1, h2]
  obtain ⟨t1, ht1⟩ := findMarkerFrom_prefix_exists variants doc.data i s h1
  obtain ⟨t2, ht2⟩ := findMarkerFrom_prefix_exists variants _ k e h2
  have hmsl : (marker s).length = (marker s).data.length := string_length_data _
  have hmel : (marker e).length = (marker e).data.length := string_length_data _
  have hd1 : doc.data.drop (i + (marker s).length) = t1 := by
    rw [← List.drop_drop, ht1]
    exact List.drop_left' hmsl.symm
  have hd2 : doc.data.drop (i + (marker s).length + k) = (marker e).data ++ t2 := by
    rw [← List.drop_drop]
    exact ht2
  have hd3 : doc.data.drop (i + (marker s).length + k + (marker e).length) = t2 := by
    rw [← List.drop_drop, hd2]
    exact List.drop_left' hmel.symm
  have hmid2 : doc.data.drop (i + (marker s).length)
      = ("\n\n" ++ T ++ "\n\n").data ++ doc.data.drop (i + (marker s).length + k) := by
    conv_lhs => rw [← List.take_append_drop k (doc.data.drop (i + (marker s).length))]
    rw [hmid, List.drop_drop]
  have hdoc : doc.data
      = doc.data.take i ++ ((marker s).data
          ++ (("\n\n" ++ T ++ "\n\n").data
            ++ ((marker e).data
              ++ doc.data.drop (i + (marker s).length + k + (marker e).length)))) := by
    conv_lhs => rw [← List.take_append_drop i doc.data]
    congr 1
    calc doc.data.drop i = (marker s).data ++ t1 := ht1
      _ = (marker s).data ++ doc.data.drop (i + (marker s).length) := by rw [hd1]
      _ = (marker s).data ++ (("\n\n" ++ T ++ "\n\n").data
            ++ doc.data.drop (i + (marker s).length + k)) := by rw [← hmid2]
      _ = (marker s).data ++ (("\n\n" ++ T ++ "\n\n").data
            ++ ((marker e).data ++ t2)) := by rw [hd2]
      _ = _ := by rw [hd3]
  have htake : i + (marker s).length + k + (marker e).length - i
      = (marker s).length + k + (marker e).length := by omega
  simp only [spliceOne, hfp]
  rw [htake, hexp]
  conv_rhs => rw [← mk_data doc]
  congr 1
  conv_rhs => rw [hdoc]
  simp [List.append_assoc]

/-- C9 amended: the splice step is idempotent *provided* the rendered tables
pass through the ECMA replacement-template `$`-expansion verbatim: when each
marker-delimited region already equals its newly rendered table with the
surrounding blank lines, and the expansion of the replacement template
reproduces markers and table verbatim, the document is returned
byte-for-byte unchanged and no rewrite is triggered. -/
theorem splice_idempotent (cmdT cfgT doc : String)
    (i1 k1 : Nat) (s1 e1 : String) (i2 k2 : Nat) (s2 e2 : String)
    (ha1 : findMarkerFrom commandsVariants doc.data = some (i1, s1))
    (ha2 : findMarkerFrom commandsVariants
        (doc.data.drop (i1 + (marker s1).length)) = some (k1, e1))
    (ha3 : (doc.data.drop (i1 + (marker s1).length)).take k1 = ("\n\n" ++ cmdT ++ "\n\n").data)
    (ha4 : expandRepl s1.data e1.data
        ((doc.data.drop i1).take ((marker s1).length + k1 + (marker e1).length))
        (doc.data.take i1)
        (doc.data.drop (i1 + (marker s1).length + k1 + (marker e1).length))
        (("<!-- $1 -->\n\n" ++ cmdT ++ "\n\n<!-- $2 -->").data)
      = (marker s1).data ++ (("\n\n" ++ cmdT ++ "\n\n").data ++ (marker e1).data))
    (hb1 : findMarkerFrom configsVariants doc.data = some (i2, s2))
    (hb2 : findMarkerFrom configsVariants
        (doc.data.drop (i2 + (marker s2).length)) = some (k2, e2))
    (hb3 : (doc.data.drop (i2 + (marker s2).length)).take k2 = ("\n\n" ++ cfgT ++ "\n\n").data)
    (hb4 : expandRepl s2.data e2.data
        ((doc.data.drop i2).take ((marker s2).length + k2 + (marker e2).length))
        (doc.data.take i2)
        (doc.data.drop (i2 + (marker s2).length + k2 + (marker e2).length))
        (("<!-- $1 -->\n\n" ++ cfgT ++ "\n\n<!-- $2 -->").data)
      = (marker s2).data ++ (("\n\n" ++ cfgT ++ "\n\n").data ++ (marker e2).data)) :
    spliceAll cmdT cfgT doc = doc ∧ rewriteNeeded doc (spliceAll cmdT cfgT doc) = false := by
  have hc1 := spliceOne_self commandsVariants cmdT doc i1 k1 s1 e1 ha1 ha2 ha3 ha4
  have hc2 := spliceOne_self configsVariants cfgT doc i2 k2 s2 e2 hb1 hb2 hb3 hb4
  have hall : spliceAll cmdT cfgT doc = doc := by
    show spliceOne configsVariants cfgT (spliceOne commandsVariants cmdT doc) = doc
    rw [hc1, hc2]
  refine ⟨hall, ?_⟩
  rw [hall]
  simp [rewriteNeeded]

/-- C9 witness: a concrete README with an up-to-date commands region and an
up-to-date configs region; the splice returns it unchanged and no rewrite
fires. -/
theorem splice_idempotent_witness :
    findMarkerFrom commandsVariants
        ("<!-- commands -->\n\nA\n\n<!-- commands -->\n<!-- configs -->\n\nB\n\n<!-- configs -->").data
      = some (0, "commands") ∧
    spliceAll "A" "B"
        "<!-- commands -->\n\nA\n\n<!-- commands -->\n<!-- configs -->\n\nB\n\n<!-- configs -->"
      = "<!-- commands -->\n\nA\n\n<!-- commands -->\n<!-- configs -->\n\nB\n\n<!-- configs -->" ∧
    rewriteNeeded
        "<!-- commands -->\n\nA\n\n<!-- commands -->\n<!-- configs -->\n\nB\n\n<!-- configs -->"
        (spliceAll "A" "B"
          "<!-- commands -->\n\nA\n\n<!-- commands -->\n<!-- configs -->\n\nB\n\n<!-- configs -->")
      = false := by
  have h := splice_idempotent "A" "B"
    "<!-- commands -->\n\nA\n\n<!-- commands -->\n<!-- configs -->\n\nB\n\n<!-- configs -->"
    0 5 "commands" "commands" 40 5 "configs" "configs"
    (by decide) (by decide) (by decide) (by decide)
    (by decide) (by decide) (by decide) (by decide)
  exact ⟨by decide, h.1, h.2⟩

/-- C9 counterexample: a rendered table containing `$$` (a dollar sign is
legal cell text — the escaper does not touch it).  The README region
already equals that table with the surrounding blank lines, yet the JS
replacement-string expansion collapses `$$` to `$`, so the splice changes
the document and the rewrite *is* triggered. -/
theorem splice_dollar_cex :
    formatTable [["a$$b"]] = "| a$$b |\n| ---- |" ∧
    (("<!-- commands -->\n\n| a$$b |\n| ---- |\n\n<!-- commands -->").data.drop
        (marker "commands").length).take 21
      = ("\n\n" ++ formatTable [["a$$b"]] ++ "\n\n").data ∧
    spliceAll (formatTable [["a$$b"]]) "**No data**"
        "<!-- commands -->\n\n| a$$b |\n| ---- |\n\n<!-- commands -->"
      ≠ "<!-- commands -->\n\n| a$$b |\n| ---- |\n\n<!-- commands -->" ∧
    rewriteNeeded "<!-- commands -->\n\n| a$$b |\n| ---- |\n\n<!-- commands -->"
        (spliceAll (formatTable [["a$$b"]]) "**No data**"
          "<!-- commands -->\n\n| a$$b |\n| ---- |\n\n<!-- commands -->")
      = true := by
  refine ⟨by decide, by decide, by decide, by decide⟩

/-- C10: `formatTable` is total: on every input (empty or jagged included)
it returns a definite string — the placeholder on the empty table, and
otherwise the join of exactly `2 + (number of body rows)` rendered lines.
No input raises an error: the only partial JS operations on this path,
`repeat` and `padEnd`, are applied to nonnegative-or-`NaN` widths. -/
theorem formatTable_total (t : List (List String)) :
    (t = [] ∧ formatTable t = "**No data**") ∨
      ∃ hd b, t = hd :: b ∧ formatTable t = jsJoin "\n" (formatTableLines hd b) ∧
        (formatTableLines hd b).length = 2 + b.length := by
  cases t with
  | nil => exact Or.inl ⟨rfl, rfl⟩
  | cons hd b =>
    refine Or.inr ⟨hd, b, rfl, rfl, ?_⟩
    simp [formatTableLines]
    omega

end GenerateTs
